import Mathlib

/-!
Verification of the data-aggregation layer of a client-side blockchain
analytics dashboard.  The aggregation module fetches operation records from a
remote indexer over HTTP, then post-processes them into headline statistics,
a recent-activity feed, a daily time series, and a top-holder leaderboard.
This file gives a shallow embedding of that module: the HTTP layer is
modelled by an outcome type, the JSON payloads by inductive shapes, and every
post-processing function is translated directly from the source.
-/

namespace TzDash

/-! ## JavaScript numeric and string primitives -/

/-- JS `Math.round`: rounds to the nearest integer, halves toward positive
infinity. -/
def jsRound (q : ℚ) : ℤ := ⌊q + 1/2⌋

/-- Whitespace characters trimmed from the front of the argument of JS
`parseInt`. -/
def isJsSpace (c : Char) : Bool :=
  c = ' ' || c = '\t' || c = '\n' || c = '\u000b' || c = '\u000c' || c = '\r' ||
  c = '\u00a0' || c = '\u1680' || ('\u2000' ≤ c && c ≤ '\u200a') ||
  c = '\u2028' || c = '\u2029' || c = '\u202f' || c = '\u205f' ||
  c = '\u3000' || c = '\ufeff'

/-- Value of a hexadecimal digit character, `none` otherwise. -/
def hexDigitVal (c : Char) : Option ℕ :=
  if '0' ≤ c ∧ c ≤ '9' then some (c.toNat - '0'.toNat)
  else if 'a' ≤ c ∧ c ≤ 'f' then some (c.toNat - 'a'.toNat + 10)
  else if 'A' ≤ c ∧ c ≤ 'F' then some (c.toNat - 'A'.toNat + 10)
  else none

/-- Value of a decimal digit character, `none` otherwise. -/
def decDigitVal (c : Char) : Option ℕ :=
  if '0' ≤ c ∧ c ≤ '9' then some (c.toNat - '0'.toNat) else none

/-- Leading sign of a JS `parseInt` argument. -/
def stripSign : List Char → Int × List Char
  | '-' :: r => (-1, r)
  | '+' :: r => (1, r)
  | cs => (1, cs)

/-- With radix 16, JS `parseInt` also skips a leading `0x` or `0X`. -/
def stripHex0x : List Char → List Char
  | '0' :: 'x' :: r => r
  | '0' :: 'X' :: r => r
  | cs => cs

/-- Longest digit run at the front, its value, or `none` when there is no
digit at all (JS `NaN`). -/
def parseIntDigits (digVal : Char → Option ℕ) (radixVal : ℕ) (cs : List Char) :
    Option Int :=
  let ds := cs.takeWhile (fun c => (digVal c).isSome)
  if ds.isEmpty then none
  else some ((ds.foldl (fun a c => a * radixVal + (digVal c).getD 0) 0 : ℕ) : Int)

/-- JS `parseInt(s, 16)`: trim whitespace, optional sign, optional `0x`, then
the longest run of hex digits; `none` models a `NaN` result. -/
def parseIntHex (s : String) : Option Int :=
  let cs := s.data.dropWhile (fun c => isJsSpace c)
  let sc := stripSign cs
  (parseIntDigits hexDigitVal 16 (stripHex0x sc.2)).map (fun v => sc.1 * v)

/-- JS `parseInt(s, 10)`: trim whitespace, optional sign, then the longest
run of decimal digits; `none` models a `NaN` result. -/
def parseIntDec (s : String) : Option Int :=
  let cs := s.data.dropWhile (fun c => isJsSpace c)
  let sc := stripSign cs
  (parseIntDigits decDigitVal 10 sc.2).map (fun v => sc.1 * v)

/-- Coercion of a JS number (`none` models `NaN`) to an element of a
`Uint8Array`: `NaN` becomes `0`, other integers wrap modulo 256. -/
def toUint8 : Option Int → ℕ
  | none => 0
  | some i => (i % 256).toNat

/-- The three-valued result of a string comparison, as JS `localeCompare`
reports it for the plain ASCII strings this module compares (the default
en collation orders ASCII digit strings by code point). -/
def lexCmp : List Char → List Char → Ordering
  | [], [] => .eq
  | [], _ :: _ => .lt
  | _ :: _, [] => .gt
  | a :: as, b :: bs =>
    if a.toNat < b.toNat then .lt
    else if b.toNat < a.toNat then .gt
    else lexCmp as bs

/-- String comparison used to model `a.localeCompare(b)`. -/
def strCmp (a b : String) : Ordering := lexCmp a.data b.data

/-! ## The hex decoder (`hexToUtf8`)

The source splits the input with `hex.match(/.{1,2}/g)`, parses each chunk
with `parseInt(chunk, 16)`, collects the results into a `Uint8Array` (where
`NaN` coerces to the byte 0) and decodes it with `new TextDecoder().decode`,
whose default mode replaces invalid sequences with U+FFFD instead of
throwing.  The `catch` branch of the source is unreachable. -/

/-- Characters that `.` does not match in a JS regex. -/
def isLineTerm (c : Char) : Bool :=
  c = '\n' || c = '\r' || c = '\u2028' || c = '\u2029'

/-- Greedy grouping into chunks of at most two characters. -/
def chunk2 : List Char → List (List Char)
  | [] => []
  | [a] => [[a]]
  | a :: b :: r => [a, b] :: chunk2 r

/-- `hex.match(/.{1,2}/g)`: a line terminator never matches `.`, so the
matches restart around it; elsewhere each match greedily takes two
characters. -/
def matchChunks (s : String) : List (List Char) :=
  (s.data.splitOnP isLineTerm).flatMap chunk2

/-- The replacement character U+FFFD. -/
def repl : Char := '\ufffd'

/-- One step of the WHATWG UTF-8 decoder in replacement mode: the first
byte plus the rest of the input become one decoded character and the
remaining input. -/
def utf8Step (b : ℕ) (bs : List ℕ) : Char × List ℕ :=
  if b < 0x80 then (Char.ofNat b, bs)
  else if 0xC2 ≤ b ∧ b ≤ 0xDF then
    match bs with
    | [] => (repl, [])
    | c :: bs2 =>
      if 0x80 ≤ c ∧ c ≤ 0xBF then (Char.ofNat ((b - 0xC0) * 64 + (c - 0x80)), bs2)
      else (repl, c :: bs2)
  else if 0xE0 ≤ b ∧ b ≤ 0xEF then
    match bs with
    | [] => (repl, [])
    | c1 :: bs2 =>
      if (if b = 0xE0 then 0xA0 else 0x80) ≤ c1 ∧ c1 ≤ (if b = 0xED then 0x9F else 0xBF) then
        match bs2 with
        | [] => (repl, [])
        | c2 :: bs3 =>
          if 0x80 ≤ c2 ∧ c2 ≤ 0xBF then
            (Char.ofNat ((b - 0xE0) * 4096 + (c1 - 0x80) * 64 + (c2 - 0x80)), bs3)
          else (repl, c2 :: bs3)
      else (repl, c1 :: bs2)
  else if 0xF0 ≤ b ∧ b ≤ 0xF4 then
    match bs with
    | [] => (repl, [])
    | c1 :: bs2 =>
      if (if b = 0xF0 then 0x90 else 0x80) ≤ c1 ∧ c1 ≤ (if b = 0xF4 then 0x8F else 0xBF) then
        match bs2 with
        | [] => (repl, [])
        | c2 :: bs3 =>
          if 0x80 ≤ c2 ∧ c2 ≤ 0xBF then
            match bs3 with
            | [] => (repl, [])
            | c3 :: bs4 =>
              if 0x80 ≤ c3 ∧ c3 ≤ 0xBF then
                (Char.ofNat ((b - 0xF0) * 262144 + (c1 - 0x80) * 4096 +
                  (c2 - 0x80) * 64 + (c3 - 0x80)), bs4)
              else (repl, c3 :: bs4)
          else (repl, c2 :: bs3)
      else (repl, c1 :: bs2)
  else (repl, bs)

/-- Decoder loop; each step consumes at least one byte, so the length of
the input is enough fuel. -/
def utf8Loop : ℕ → List ℕ → List Char
  | 0, _ => []
  | _, [] => []
  | fuel + 1, b :: bs =>
    let st := utf8Step b bs
    st.1 :: utf8Loop fuel st.2

/-- `new TextDecoder().decode` on a byte array, default (replacement)
mode. -/
def utf8Decode (bs : List ℕ) : List Char := utf8Loop bs.length bs

/-- The hex decoder `hexToUtf8` of the source. -/
def hexToUtf8 (hex : String) : String :=
  String.mk (utf8Decode ((matchChunks hex).map (fun ch => toUint8 (parseIntHex (String.mk ch)))))

/-! ## Percentage change (`pct` inside `getStats`) -/

/-- The percentage-change helper defined inside `getStats`:
`prev === 0 ? (curr > 0 ? 100 : null) : Math.round(((curr - prev) / prev) * 1000) / 10`. -/
def pct (curr prev : ℤ) : Option ℚ :=
  if prev = 0 then (if 0 < curr then some 100 else none)
  else some ((jsRound (((curr : ℚ) - (prev : ℚ)) / (prev : ℚ) * 1000) : ℚ) / 10)

/-- Modelled from the spec wording of the percentage-change formula
(sections 4.3 and 8): `round(((c-p)/p)*1000)/10`, the percentage rounded to
one decimal place, with the `p = 0` cases as given there.  Stated with the
mathematical rounding function, to be compared against `pct`. -/
def pctSpec (c p : ℤ) : Option ℚ :=
  if p = 0 then (if 0 < c then some 100 else none)
  else some ((round (((c : ℚ) - (p : ℚ)) / (p : ℚ) * 1000) : ℚ) / 10)

/-! ## The HTTP boundary (`fetchJson`, `fetchCount`)

An HTTP GET either throws (network failure, modelled `err`) or yields a
response with a success flag and a body text. -/

inductive HttpOutcome where
  | err : HttpOutcome
  | resp (ok : Bool) (text : String) : HttpOutcome

/-- The failure modes of section 4.2: network error, non-success status,
empty body. -/
def HttpOutcome.isFailure : HttpOutcome → Bool
  | .err => true
  | .resp ok text => !ok || text = ""

/-- `fetchCount` of the source: `parseInt(text, 10) || 0` on a successful
non-empty body, `0` on every failure mode. -/
def fetchCount : HttpOutcome → ℤ
  | .err => 0
  | .resp ok text =>
    if !ok then 0
    else if text = "" then 0
    else (parseIntDec text).getD 0

/-- `fetchJson` of the source, generic over the deserialization of the call
site payload (`JSON.parse` plus cast, which throws inside the `try` on
malformed JSON): `null` on every failure mode. -/
def fetchJson {α : Type} (parse : String → Option α) : HttpOutcome → Option α
  | .err => none
  | .resp ok text =>
    if !ok then none
    else if text = "" then none
    else parse text

/-! ## `getStats` -/

/-- The `DomainStats` record returned by `getStats`. -/
structure DomainStats where
  totalDomains : ℤ
  new24h : ℤ
  renewals24h : ℤ
  activeUsers : ℤ
  totalDomainsChange : Option ℚ
  new24hChange : Option ℚ
  renewalsChange : Option ℚ
  activeUsersChange : Option ℚ
deriving DecidableEq

/-- `getStats` as a function of the six fetched counts (the six `fetchCount`
calls are issued in parallel and only their results enter the record).
`uniqueSenders || 0` maps the falsy `0` to `0` and keeps any other value. -/
def getStats (totalBuys buysLast24h buysPrev24h renewsLast24h renewsPrev24h
    uniqueSenders : ℤ) : DomainStats :=
  { totalDomains := totalBuys
    new24h := buysLast24h
    renewals24h := renewsLast24h
    activeUsers := if uniqueSenders = 0 then 0 else uniqueSenders
    totalDomainsChange := none
    new24hChange := pct buysLast24h buysPrev24h
    renewalsChange := pct renewsLast24h renewsPrev24h
    activeUsersChange := none }

/-! ## Timestamp parsing (`new Date(s).getTime()`)

The indexer returns ISO-8601 UTC timestamps; the comparator of
`getRecentActivity` parses them to epoch milliseconds.  A shape outside the
modelled ISO forms yields `none` (JS `NaN`). -/

/-- Leap-year rule of the proleptic Gregorian calendar. -/
def isLeapYear (y : ℕ) : Bool :=
  (y % 4 = 0 && y % 100 ≠ 0) || y % 400 = 0

/-- Number of days in a month. -/
def daysInMonth (y m : ℕ) : ℕ :=
  if m = 2 then (if isLeapYear y then 29 else 28)
  else if m = 4 ∨ m = 6 ∨ m = 9 ∨ m = 11 then 30
  else 31

/-- Days from the civil epoch 1970-01-01 to the given date (Gregorian). -/
def daysFromCivil (y m d : ℕ) : ℤ :=
  let yi : ℤ := if m ≤ 2 then (y : ℤ) - 1 else (y : ℤ)
  let era : ℤ := (if 0 ≤ yi then yi else yi - 399) / 400
  let yoe : ℤ := yi - era * 400
  let mp : ℤ := ((m : ℤ) + 9) % 12
  let doy : ℤ := (153 * mp + 2) / 5 + (d : ℤ) - 1
  let doe : ℤ := yoe * 365 + yoe / 4 - yoe / 100 + doy
  era * 146097 + doe - 719468

/-- Two decimal digit characters as a number. -/
def parse2Digits (a b : Char) : Option ℕ :=
  match decDigitVal a, decDigitVal b with
  | some x, some y => some (x * 10 + y)
  | _, _ => none

/-- Four decimal digit characters as a number. -/
def parse4Digits (a b c d : Char) : Option ℕ :=
  match parse2Digits a b, parse2Digits c d with
  | some x, some y => some (x * 100 + y)
  | _, _ => none

/-- Validity check JS applies to an ISO date. -/
def validYmd (y m d : ℕ) : Bool :=
  1 ≤ m && m ≤ 12 && 1 ≤ d && d ≤ daysInMonth y m

/-- Milliseconds part of an ISO timestamp tail: `Z` or `.mmmZ`. -/
def parseMsTail : List Char → Option ℕ
  | ['Z'] => some 0
  | ['.', a, b, c, 'Z'] =>
    match decDigitVal a, decDigitVal b, decDigitVal c with
    | some x, some y, some z => some (x * 100 + y * 10 + z)
    | _, _, _ => none
  | _ => none

/-- `new Date(s).getTime()` for the ISO-8601 shapes this module produces and
consumes: a date `YYYY-MM-DD` (UTC midnight) or a UTC date-time
`YYYY-MM-DDTHH:MM:SSZ`, optionally with milliseconds.  `none` models `NaN`
(an invalid date). -/
def jsGetTime (s : String) : Option ℤ :=
  match s.data with
  | [y1, y2, y3, y4, '-', m1, m2, '-', d1, d2] =>
    match parse4Digits y1 y2 y3 y4, parse2Digits m1 m2, parse2Digits d1 d2 with
    | some y, some m, some d =>
      if validYmd y m d then some (daysFromCivil y m d * 86400000) else none
    | _, _, _ => none
  | y1 :: y2 :: y3 :: y4 :: '-' :: m1 :: m2 :: '-' :: d1 :: d2 :: 'T' ::
      h1 :: h2 :: ':' :: i1 :: i2 :: ':' :: s1 :: s2 :: rest =>
    match parse4Digits y1 y2 y3 y4, parse2Digits m1 m2, parse2Digits d1 d2,
        parse2Digits h1 h2, parse2Digits i1 i2, parse2Digits s1 s2,
        parseMsTail rest with
    | some y, some m, some d, some h, some mi, some sec, some ms =>
      if validYmd y m d && h ≤ 23 && mi ≤ 59 && sec ≤ 59 then
        some (daysFromCivil y m d * 86400000 + (h : ℤ) * 3600000 +
          (mi : ℤ) * 60000 + (sec : ℤ) * 1000 + (ms : ℤ))
      else none
    | _, _, _, _, _, _, _ => none
  | _ => none

/-! ## `getRecentActivity` -/

/-- Shape of the entrypoint parameter payload `op.parameter.value`: either an
object that may carry a `label` field, or a bare string. -/
inductive ParamValue where
  | obj (label : Option String) : ParamValue
  | str (s : String) : ParamValue
deriving DecidableEq

/-- An operation record as consumed by `getRecentActivity`: identifier,
parameter payload (absent models a missing `parameter` or `value`), sender
address (`op.sender?.address`, absent when either link is missing),
ISO timestamp, and amount in the smallest currency unit (`op.amount`,
absent maps to `0` through `op.amount || 0`). -/
structure TxOp where
  id : ℕ
  parameter : Option ParamValue
  sender : Option String
  timestamp : String
  amount : Option ℕ
deriving DecidableEq

/-- Event classes of the activity feed. -/
inductive EventType where
  | buy : EventType
  | renew : EventType
  | transfer : EventType
deriving DecidableEq

/-- A normalized `ActivityItem`. -/
structure ActivityItem where
  id : String
  type : EventType
  domain : String
  address : String
  timestamp : String
  amount : ℚ
deriving DecidableEq

/-- `op.parameter?.value?.label` — present only when the payload is an
object with a `label` field (a bare string payload has no `label`). -/
def buyLabel (op : TxOp) : Option String :=
  match op.parameter with
  | some (.obj (some l)) => some l
  | _ => none

/-- `op.sender?.address || 'unknown'` — an absent or empty address falls
back to the sentinel. -/
def addrOf (op : TxOp) : String :=
  match op.sender with
  | some a => if a = "" then "unknown" else a
  | none => "unknown"

/-- The activity item built for one acquisition operation:
`label ? hexToUtf8(label) + '.tez' : 'unknown.tez'` (an empty label string
is falsy in JS and also takes the sentinel branch). -/
def buyItem (op : TxOp) : ActivityItem :=
  { id := "buy-" ++ Nat.repr op.id
    type := .buy
    domain :=
      match buyLabel op with
      | some l => if l = "" then "unknown.tez" else hexToUtf8 l ++ ".tez"
      | none => "unknown.tez"
    address := addrOf op
    timestamp := op.timestamp
    amount := (op.amount.getD 0 : ℚ) / 1000000 }

/-- The test `/^[0-9a-f]+$/i.test(label)`. -/
def isHexLike (s : String) : Bool :=
  !s.data.isEmpty && s.data.all (fun c => (hexDigitVal c).isSome)

/-- The renewal name: `op.parameter?.value?.label ?? op.parameter?.value`,
hex-decoded when the result is a string of hex digits, used as-is when it is
some other non-empty string, the sentinel when absent or empty.  When the
payload is an object without `label`, the `??` chain yields the object
itself, which the template literal stringifies. -/
def renewName (op : TxOp) : String :=
  match op.parameter with
  | none => "unknown"
  | some (.obj none) => "[object Object]"
  | some (.obj (some l)) =>
    if isHexLike l then hexToUtf8 l else if l = "" then "unknown" else l
  | some (.str s) =>
    if isHexLike s then hexToUtf8 s else if s = "" then "unknown" else s

/-- The activity item built for one renewal operation. -/
def renewItem (op : TxOp) : ActivityItem :=
  { id := "renew-" ++ Nat.repr op.id
    type := .renew
    domain := renewName op ++ ".tez"
    address := addrOf op
    timestamp := op.timestamp
    amount := (op.amount.getD 0 : ℚ) / 1000000 }

/-- The sort comparator
`(a, b) => new Date(b.timestamp).getTime() - new Date(a.timestamp).getTime()`;
per the ECMAScript `SortCompare` rule a `NaN` comparator result counts
as `+0`. -/
def activityCmp (a b : ActivityItem) : ℤ :=
  match jsGetTime b.timestamp, jsGetTime a.timestamp with
  | some tb, some ta => tb - ta
  | _, _ => 0

/-- The order the comparator induces on activity items. -/
def activityLE (a b : ActivityItem) : Prop := activityCmp a b ≤ 0

instance : DecidableRel activityLE := fun a b =>
  inferInstanceAs (Decidable (activityCmp a b ≤ 0))

/-- The merged event list, acquisitions first, before sorting: a `null`
fetch result (`Array.isArray` fails) contributes no events. -/
def mergedItems (buys renews : Option (List TxOp)) : List ActivityItem :=
  (match buys with
   | some l => l.map buyItem
   | none => []) ++
  (match renews with
   | some l => l.map renewItem
   | none => [])

/-- `getRecentActivity` as a function of the two fetch results: merge,
stable-sort descending by timestamp, keep the first 15. -/
def getRecentActivity (buys renews : Option (List TxOp)) : List ActivityItem :=
  (List.insertionSort activityLE (mergedItems buys renews)).take 15

/-! ## `getGrowthData` -/

/-- An operation row fetched with `select=timestamp,amount`. -/
structure GrowthOp where
  timestamp : Option String
  amount : Option ℕ
deriving DecidableEq

/-- A daily bucket value. -/
structure Bucket where
  count : ℕ
  volume : ℚ
deriving DecidableEq

/-- A chart row emitted by `getGrowthData`. -/
structure ChartData where
  date : String
  count : ℕ
  volume : ℚ
deriving DecidableEq

/-- A calendar date, as the `Date` the loop manipulates. -/
structure CivilDate where
  year : ℕ
  month : ℕ
  day : ℕ
deriving DecidableEq

/-- The calendar predecessor, the effect of `d.setDate(d.getDate() - 1)`. -/
def prevDay (t : CivilDate) : CivilDate :=
  if 2 ≤ t.day then { t with day := t.day - 1 }
  else if 2 ≤ t.month then
    { year := t.year, month := t.month - 1, day := daysInMonth t.year (t.month - 1) }
  else { year := t.year - 1, month := 12, day := 31 }

/-- `d.setDate(d.getDate() - n)`. -/
def subDays (t : CivilDate) : ℕ → CivilDate
  | 0 => t
  | n + 1 => prevDay (subDays t n)

/-- Two-digit zero padding, as in an ISO date. -/
def pad2 (n : ℕ) : String := if n < 10 then "0" ++ Nat.repr n else Nat.repr n

/-- Four-digit zero padding, as in an ISO date. -/
def pad4 (n : ℕ) : String :=
  if n < 10 then "000" ++ Nat.repr n
  else if n < 100 then "00" ++ Nat.repr n
  else if n < 1000 then "0" ++ Nat.repr n
  else Nat.repr n

/-- `d.toISOString().slice(0, 10)` for a calendar date. -/
def isoDateKey (t : CivilDate) : String :=
  pad4 t.year ++ "-" ++ pad2 t.month ++ "-" ++ pad2 t.day

/-- The 31 keys pre-filled by the loop `for (let i = 30; i >= 0; i--)`,
oldest date first, today last. -/
def growthKeys (today : CivilDate) : List String :=
  (List.range 31).map (fun j => isoDateKey (subDays today (30 - j)))

/-- Membership of a key in an association list modelling a JS object. -/
def hasKey (bs : List (String × Bucket)) (k : String) : Bool :=
  bs.any (fun p => p.1 = k)

/-- `buckets[key] = { count: 0, volume: 0 }` on a JS object: overwrite the
entry when the key exists, otherwise append it. -/
def upsertZero (bs : List (String × Bucket)) (k : String) : List (String × Bucket) :=
  if hasKey bs k then bs.map (fun p => if p.1 = k then (p.1, ⟨0, 0⟩) else p)
  else bs ++ [(k, ⟨0, 0⟩)]

/-- The pre-filled bucket object. -/
def prefill (today : CivilDate) : List (String × Bucket) :=
  (growthKeys today).foldl upsertZero []

/-- One iteration of the accumulation loop: slice the date key off the
timestamp; when it is non-empty and an existing bucket key, increment that
bucket count and add `(op.amount || 0) / 1_000_000` to its volume. -/
def applyOp (bs : List (String × Bucket)) : GrowthOp → List (String × Bucket)
  | ⟨none, _⟩ => bs
  | ⟨some ts, amt⟩ =>
    if String.mk (ts.data.take 10) = "" then bs
    else if hasKey bs (String.mk (ts.data.take 10)) then
      bs.map (fun p =>
        if p.1 = String.mk (ts.data.take 10) then
          (p.1, ⟨p.2.count + 1, p.2.volume + (amt.getD 0 : ℚ) / 1000000⟩)
        else p)
    else bs

/-- `Math.round(v * 100) / 100`. -/
def round2 (v : ℚ) : ℚ := (jsRound (v * 100) : ℚ) / 100

/-- English short month names used by `toLocaleDateString('en-US', ...)`. -/
def monthName (m : ℕ) : String :=
  if m = 1 then "Jan" else if m = 2 then "Feb" else if m = 3 then "Mar"
  else if m = 4 then "Apr" else if m = 5 then "May" else if m = 6 then "Jun"
  else if m = 7 then "Jul" else if m = 8 then "Aug" else if m = 9 then "Sep"
  else if m = 10 then "Oct" else if m = 11 then "Nov" else "Dec"

/-- `new Date(key).toLocaleDateString('en-US', { month: 'short', day: 'numeric' })`
for a bucket key (a UTC runtime renders the UTC date). -/
def displayDate (s : String) : String :=
  match s.data with
  | [y1, y2, y3, y4, '-', m1, m2, '-', d1, d2] =>
    match parse4Digits y1 y2 y3 y4, parse2Digits m1 m2, parse2Digits d1 d2 with
    | some y, some m, some d =>
      if validYmd y m d then monthName m ++ " " ++ Nat.repr d else "Invalid Date"
    | _, _, _ => "Invalid Date"
  | _ => "Invalid Date"

/-- The bucket entries after accumulation and the
`Object.entries(buckets).sort(([a], [b]) => a.localeCompare(b))` sort. -/
def growthEntries (today : CivilDate) (ops : List GrowthOp) : List (String × Bucket) :=
  List.insertionSort (fun a b => strCmp a.1 b.1 ≠ .gt)
    (ops.foldl applyOp (prefill today))

/-- `getGrowthData` as a function of the ambient date and the fetch result:
a `null` or empty fetch yields the empty series, otherwise the pre-filled,
accumulated, sorted buckets are formatted for display. -/
def getGrowthData (today : CivilDate) (fetched : Option (List GrowthOp)) :
    List ChartData :=
  match fetched with
  | none => []
  | some ops =>
    if ops.isEmpty then []
    else (growthEntries today ops).map
      (fun p => ⟨displayDate p.1, p.2.count, round2 p.2.volume⟩)

/-! ## `getTopHolders` -/

/-- The sender field of a fetched row: either an object that may carry an
address, or a bare string. -/
inductive SenderVal where
  | obj (address : Option String) : SenderVal
  | str (s : String) : SenderVal
deriving DecidableEq

/-- An operation row as consumed by `getTopHolders`. -/
structure HolderOp where
  sender : Option SenderVal
deriving DecidableEq

/-- `const addr = op.sender?.address || op.sender` followed by
`if (addr && typeof addr === 'string')`: only a non-empty address string, or
a bare non-empty sender string, is tallied; an object fallback is not a
string and a missing sender is falsy. -/
def tallyAddr (op : HolderOp) : Option String :=
  match op.sender with
  | some (.obj (some a)) => if a = "" then none else some a
  | some (.obj none) => none
  | some (.str s) => if s = "" then none else some s
  | none => none

/-- `counts[addr] = (counts[addr] || 0) + 1` on a JS object. -/
def bumpCount (cs : List (String × ℕ)) (a : String) : List (String × ℕ) :=
  if cs.any (fun p => p.1 = a) then
    cs.map (fun p => if p.1 = a then (p.1, p.2 + 1) else p)
  else cs ++ [(a, 1)]

/-- One iteration of the tally loop. -/
def tallyStep (cs : List (String × ℕ)) (op : HolderOp) : List (String × ℕ) :=
  match tallyAddr op with
  | some a => bumpCount cs a
  | none => cs

/-- The tally loop over the fetched rows. -/
def tally (ops : List HolderOp) : List (String × ℕ) :=
  ops.foldl tallyStep []

/-- An `AddressRanking` row. -/
structure Holder where
  address : String
  count : ℕ
deriving DecidableEq

/-- `getTopHolders` as a function of the fetch result: tally, stable-sort
descending by count (`([, a], [, b]) => b - a`), keep the first 10. -/
def getTopHolders (fetched : Option (List HolderOp)) : List Holder :=
  match fetched with
  | none => []
  | some ops =>
    if ops.isEmpty then []
    else ((List.insertionSort (fun a b => b.2 ≤ a.2) (tally ops)).take 10).map
      (fun p => ⟨p.1, p.2⟩)

/-! ## Sorting helper lemmas

A stable sort with a comparator that is transitive and total on the elements
actually present produces a pairwise-ordered list.  The comparator of
`getRecentActivity` is only well behaved on items whose timestamps parse, so
the lemma is relativized to a predicate `P`. -/

theorem pairwise_orderedInsert {α : Type} (r : α → α → Prop) [DecidableRel r]
    (P : α → Prop)
    (htrans : ∀ a b c, P a → P b → P c → r a b → r b c → r a c)
    (htotal : ∀ a b, P a → P b → r a b ∨ r b a)
    (a : α) (ha : P a) :
    ∀ (l : List α), (∀ x ∈ l, P x) → l.Pairwise r →
      (List.orderedInsert r a l).Pairwise r := by
  intro l
  induction l with
  | nil => intro _ _; simp [List.orderedInsert]
  | cons b t ih =>
    intro hl hp
    rcases List.pairwise_cons.mp hp with ⟨hbt, hpt⟩
    rw [List.orderedInsert]
    by_cases hab : r a b
    · rw [if_pos hab]
      refine List.pairwise_cons.mpr ⟨?_, hp⟩
      intro x hx
      rcases List.mem_cons.mp hx with heq | hx
      · rw [heq]
        exact hab
      · exact htrans a b x ha (hl b (List.mem_cons_self b t))
          (hl x (List.mem_cons_of_mem b hx)) hab (hbt x hx)
    · rw [if_neg hab]
      refine List.pairwise_cons.mpr ⟨?_, ?_⟩
      · intro x hx
        rcases (List.mem_orderedInsert r).mp hx with heq | hx
        · rw [heq]
          rcases htotal a b ha (hl b (List.mem_cons_self b t)) with h | h
          · exact absurd h hab
          · exact h
        · exact hbt x hx
      · exact ih (fun x hx => hl x (List.mem_cons_of_mem b hx)) hpt

theorem pairwise_insertionSort {α : Type} (r : α → α → Prop) [DecidableRel r]
    (P : α → Prop)
    (htrans : ∀ a b c, P a → P b → P c → r a b → r b c → r a c)
    (htotal : ∀ a b, P a → P b → r a b ∨ r b a) :
    ∀ (l : List α), (∀ x ∈ l, P x) → (List.insertionSort r l).Pairwise r := by
  intro l
  induction l with
  | nil => intro _; simp [List.insertionSort]
  | cons b t ih =>
    intro hl
    rw [List.insertionSort]
    refine pairwise_orderedInsert r P htrans htotal b (hl b (List.mem_cons_self b t))
      _ ?_ (ih fun x hx => hl x (List.mem_cons_of_mem b hx))
    intro x hx
    exact hl x (List.mem_cons_of_mem b ((List.mem_insertionSort r).mp hx))

/-! ## The decimal representation of a natural number is injective -/

/-- Decimal digit characters of a natural number, most significant first. -/
def myDigits (n : ℕ) : List Char :=
  if _h : n < 10 then [Nat.digitChar n]
  else myDigits (n / 10) ++ [Nat.digitChar (n % 10)]
decreasing_by exact Nat.div_lt_self (by omega) (by omega)

theorem toDigitsCore_eq (fuel : ℕ) :
    ∀ (n : ℕ) (ds : List Char), n < fuel →
      Nat.toDigitsCore 10 fuel n ds = myDigits n ++ ds := by
  induction fuel with
  | zero => intro n ds h; omega
  | succ f ih =>
    intro n ds h
    by_cases h10 : n / 10 = 0
    · have hn : n < 10 := by omega
      rw [Nat.toDigitsCore, if_pos h10, myDigits, dif_pos hn, Nat.mod_eq_of_lt hn]
      rfl
    · have hn : ¬ n < 10 := by omega
      have hdiv : n / 10 < n := Nat.div_lt_self (by omega) (by omega)
      rw [Nat.toDigitsCore, if_neg h10, ih (n / 10) _ (by omega)]
      conv_rhs => rw [myDigits]
      rw [dif_neg hn, List.append_assoc]
      rfl

/-- Value of a digit character list continued from an accumulator. -/
def digitsVal (a : ℕ) (l : List Char) : ℕ :=
  l.foldl (fun x c => x * 10 + (c.toNat - 48)) a

theorem digitChar_toNat_sub (n : ℕ) (h : n < 10) : (Nat.digitChar n).toNat - 48 = n := by
  interval_cases n <;> rfl

theorem digitsVal_myDigits :
    ∀ (n a : ℕ), digitsVal a (myDigits n) = a * 10 ^ (myDigits n).length + n := by
  intro n
  induction n using Nat.strong_induction_on with
  | _ n ih =>
    intro a
    by_cases h : n < 10
    · rw [myDigits, dif_pos h]
      simp [digitsVal, digitChar_toNat_sub n h]
    · have hdiv : n / 10 < n := Nat.div_lt_self (by omega) (by omega)
      rw [myDigits, dif_neg h, digitsVal, List.foldl_append]
      have hrec := ih (n / 10) hdiv a
      rw [digitsVal] at hrec
      simp only [List.foldl_cons, List.foldl_nil, hrec,
        digitChar_toNat_sub (n % 10) (Nat.mod_lt _ (by omega))]
      rw [List.length_append, List.length_cons, List.length_nil, pow_succ]
      have := Nat.div_add_mod n 10
      ring_nf
      omega

theorem natRepr_inj : Function.Injective Nat.repr := by
  intro m n h
  have hm : Nat.repr m = (myDigits m).asString := by
    rw [Nat.repr, Nat.toDigits, toDigitsCore_eq (m + 1) m [] (by omega), List.append_nil]
  have hn : Nat.repr n = (myDigits n).asString := by
    rw [Nat.repr, Nat.toDigits, toDigitsCore_eq (n + 1) n [] (by omega), List.append_nil]
  rw [hm, hn] at h
  have hlists : myDigits m = myDigits n := by
    have := congrArg String.data h
    simpa [List.asString] using this
  have := congrArg (digitsVal 0) hlists
  rw [digitsVal_myDigits, digitsVal_myDigits] at this
  simpa using this

/-! ## Lexicographic comparison lemmas -/

theorem lexCmp_self : ∀ (l : List Char), lexCmp l l = .eq := by
  intro l
  induction l with
  | nil => rfl
  | cons a as ih => simp [lexCmp, ih]

theorem strCmp_lt_ne {a b : String} (h : strCmp a b = .lt) : a ≠ b := by
  intro heq
  rw [heq, strCmp, lexCmp_self] at h
  cases h

/-! ## C1: the percentage-change formula -/

/-- C1: for non-negative integers `c`, `p`, the helper `pct` of `getStats`
returns `round(((c-p)/p)*1000)/10` when `p > 0`, `100` when `p = 0 < c`, and
`null` when `p = c = 0`. -/
theorem pct_formula (c p : ℕ) :
    (0 < p → pct (c : ℤ) (p : ℤ) =
      some ((round (((c : ℚ) - (p : ℚ)) / (p : ℚ) * 1000) : ℤ) / 10 : ℚ)) ∧
    (p = 0 → 0 < c → pct (c : ℤ) (p : ℤ) = some 100) ∧
    (p = 0 → c = 0 → pct (c : ℤ) (p : ℤ) = none) := by
  refine ⟨?_, ?_, ?_⟩
  · intro hp
    rw [pct, if_neg (by exact_mod_cast hp.ne')]
    simp [jsRound, round_eq]
  · intro hp hc
    subst hp
    rw [pct, if_pos (by norm_num), if_pos (by exact_mod_cast hc)]
  · intro hp hc
    subst hp
    subst hc
    rw [pct, if_pos (by norm_num), if_neg (by norm_num)]

/-! ## C4: the hex decoder on non-hex input -/

/-- C4 (what the code does at the claimed input): on the non-hex string
`"zz"`, `parseInt` yields `NaN`, the `Uint8Array` coerces it to the byte `0`,
and `TextDecoder` decodes that byte as NUL without throwing, so `hexToUtf8`
returns the NUL character — not the original input as the spec claims; the
`catch` that would return the input unchanged is unreachable. -/
theorem hexToUtf8_nonhex_changes_input :
    hexToUtf8 "zz" = "\x00" ∧ hexToUtf8 "zz" ≠ "zz" := by
  constructor
  · decide
  · decide

/-! ## C8: hex label decoding end to end -/

/-- C8: an acquisition operation whose parameter payload carries the
hex-encoded label `"74657374"` produces the activity event domain
`"test.tez"`. -/
theorem hex_label_decodes_to_test_tez (op : TxOp)
    (h : op.parameter = some (.obj (some "74657374"))) :
    (getRecentActivity (some [op]) (some [])).map ActivityItem.domain =
      ["test.tez"] := by
  simp [getRecentActivity, mergedItems, List.insertionSort, List.orderedInsert,
    buyItem, buyLabel, h]
  decide

theorem hex_label_decodes_to_test_tez_witness :
    (getRecentActivity
        (some [(⟨7, some (.obj (some "74657374")), some "tz1abc",
          "2025-10-12T09:30:00Z", some 500000⟩ : TxOp)])
        (some [])).map ActivityItem.domain = ["test.tez"] :=
  hex_label_decodes_to_test_tez _ rfl

/-! ## C2: total indexer unavailability degrades to the neutral state -/

theorem fetchCount_of_failure (o : HttpOutcome) (h : o.isFailure = true) :
    fetchCount o = 0 := by
  cases o with
  | err => rfl
  | resp ok text =>
    simp only [HttpOutcome.isFailure, Bool.or_eq_true, Bool.not_eq_true',
      decide_eq_true_eq] at h
    rcases h with h | h
    · subst h; rfl
    · cases ok <;> simp [fetchCount, h]

theorem fetchJson_of_failure {α : Type} (parse : String → Option α)
    (o : HttpOutcome) (h : o.isFailure = true) : fetchJson parse o = none := by
  cases o with
  | err => rfl
  | resp ok text =>
    simp only [HttpOutcome.isFailure, Bool.or_eq_true, Bool.not_eq_true',
      decide_eq_true_eq] at h
    rcases h with h | h
    · subst h; rfl
    · cases ok <;> simp [fetchJson, h]

theorem pct_zero_zero : pct 0 0 = none := by
  rw [pct, if_pos rfl, if_neg (by norm_num)]

/-- C2: when every HTTP fetch of a refresh cycle fails (network error,
non-success status, or empty body), the four aggregator results are the
neutral values: a stats snapshot with every metric zero and every change
field null, and empty activity, growth, and leaderboard sequences — no
error is raised anywhere (every model function is total). -/
theorem all_fetches_fail_degrade
    (o1 o2 o3 o4 o5 o6 o7 o8 o9 o10 : HttpOutcome)
    (pb pr : String → Option (List TxOp))
    (pg : String → Option (List GrowthOp))
    (ph : String → Option (List HolderOp)) (today : CivilDate)
    (h1 : o1.isFailure = true) (h2 : o2.isFailure = true)
    (h3 : o3.isFailure = true) (h4 : o4.isFailure = true)
    (h5 : o5.isFailure = true) (h6 : o6.isFailure = true)
    (h7 : o7.isFailure = true) (h8 : o8.isFailure = true)
    (h9 : o9.isFailure = true) (h10 : o10.isFailure = true) :
    getStats (fetchCount o1) (fetchCount o2) (fetchCount o3) (fetchCount o4)
        (fetchCount o5) (fetchCount o6) =
      ⟨0, 0, 0, 0, none, none, none, none⟩ ∧
    getRecentActivity (fetchJson pb o7) (fetchJson pr o8) = [] ∧
    getGrowthData today (fetchJson pg o9) = [] ∧
    getTopHolders (fetchJson ph o10) = [] := by
  rw [fetchCount_of_failure o1 h1, fetchCount_of_failure o2 h2,
    fetchCount_of_failure o3 h3, fetchCount_of_failure o4 h4,
    fetchCount_of_failure o5 h5, fetchCount_of_failure o6 h6,
    fetchJson_of_failure pb o7 h7, fetchJson_of_failure pr o8 h8,
    fetchJson_of_failure pg o9 h9, fetchJson_of_failure ph o10 h10]
  refine ⟨?_, rfl, rfl, rfl⟩
  rw [getStats]
  simp only [pct_zero_zero, if_pos]

theorem all_fetches_fail_degrade_witness :
    getStats (fetchCount .err) (fetchCount .err) (fetchCount .err)
        (fetchCount .err) (fetchCount .err) (fetchCount .err) =
      ⟨0, 0, 0, 0, none, none, none, none⟩ ∧
    getRecentActivity (fetchJson (fun _ => (none : Option (List TxOp))) .err)
        (fetchJson (fun _ => (none : Option (List TxOp))) .err) = [] ∧
    getGrowthData ⟨2025, 10, 12⟩
        (fetchJson (fun _ => (none : Option (List GrowthOp))) .err) = [] ∧
    getTopHolders (fetchJson (fun _ => (none : Option (List HolderOp))) .err) = [] :=
  all_fetches_fail_degrade .err .err .err .err .err .err .err .err .err .err
    _ _ _ _ ⟨2025, 10, 12⟩ rfl rfl rfl rfl rfl rfl rfl rfl rfl rfl

/-! ## C7: invariants of every produced activity event -/

theorem append_tez_ne_empty (s : String) : s ++ ".tez" ≠ "" := by
  intro h
  have hlen := congrArg String.length h
  rw [String.length_append] at hlen
  have h4 : (".tez" : String).length = 4 := rfl
  have h0 : ("" : String).length = 0 := rfl
  rw [h4, h0] at hlen
  omega

/-- C7: every event `getRecentActivity` produces has a non-negative amount
(whole units, `amount / 1_000_000`) and a non-empty domain name; when the
label payload is absent the domain falls back to the sentinel unknown
label. -/
theorem activity_event_invariants (buys renews : Option (List TxOp)) :
    (∀ item ∈ getRecentActivity buys renews, 0 ≤ item.amount ∧ item.domain ≠ "") ∧
    (∀ op : TxOp, op.parameter = none →
      (buyItem op).domain = "unknown.tez" ∧ (renewItem op).domain = "unknown.tez") := by
  constructor
  · intro item hitem
    have hmem : item ∈ mergedItems buys renews :=
      (List.mem_insertionSort activityLE).mp (List.mem_of_mem_take hitem)
    have hshape : (∃ op : TxOp, buyItem op = item) ∨ (∃ op : TxOp, renewItem op = item) := by
      rcases List.mem_append.mp hmem with h | h
      · cases buys with
        | none => cases h
        | some l =>
          rcases List.mem_map.mp h with ⟨op, _, hop⟩
          exact Or.inl ⟨op, hop⟩
      · cases renews with
        | none => cases h
        | some l =>
          rcases List.mem_map.mp h with ⟨op, _, hop⟩
          exact Or.inr ⟨op, hop⟩
    rcases hshape with ⟨op, hop⟩ | ⟨op, hop⟩
    · rw [← hop]
      constructor
      · exact div_nonneg (by positivity) (by norm_num)
      · rw [buyItem]
        rcases hbl : buyLabel op with _ | l
        · simp only [hbl]
          decide
        · simp only [hbl]
          by_cases hl : l = ""
          · rw [if_pos hl]; decide
          · rw [if_neg hl]; exact append_tez_ne_empty _
    · rw [← hop]
      refine ⟨div_nonneg (by positivity) (by norm_num), ?_⟩
      exact append_tez_ne_empty _
  · intro op hop
    obtain ⟨i, par, snd, ts, am⟩ := op
    have hpar : par = none := hop
    subst hpar
    exact ⟨rfl, rfl⟩

theorem activity_event_invariants_witness :
    (buyItem ⟨3, none, some "tz1xyz", "2025-10-11T00:00:00Z", some 250000⟩).domain =
        "unknown.tez" ∧
      (renewItem ⟨3, none, some "tz1xyz", "2025-10-11T00:00:00Z", some 250000⟩).domain =
        "unknown.tez" :=
  (activity_event_invariants (some []) (some [])).2
    ⟨3, none, some "tz1xyz", "2025-10-11T00:00:00Z", some 250000⟩ rfl

/-! ## Bucket object lemmas for `getGrowthData` -/

theorem growthKeys_length (today : CivilDate) : (growthKeys today).length = 31 := by
  simp [growthKeys]

theorem map_fst_update (bs : List (String × Bucket)) (k : String)
    (f : String × Bucket → Bucket) :
    (bs.map (fun p => if p.1 = k then (p.1, f p) else p)).map Prod.fst =
      bs.map Prod.fst := by
  rw [List.map_map]
  refine List.map_congr_left ?_
  intro p _
  by_cases h : p.1 = k <;> simp [h]

theorem hasKey_iff_mem (bs : List (String × Bucket)) (k : String) :
    hasKey bs k = true ↔ k ∈ bs.map Prod.fst := by
  simp [hasKey, List.any_eq_true, List.mem_map]

theorem hasKey_of_map_fst {bs cs : List (String × Bucket)} (k : String)
    (h : bs.map Prod.fst = cs.map Prod.fst) : hasKey bs k = hasKey cs k := by
  by_cases hb : hasKey bs k = true
  · rw [hb]
    exact ((hasKey_iff_mem cs k).mpr (h ▸ (hasKey_iff_mem bs k).mp hb)).symm
  · have hb2 : hasKey bs k = false := Bool.eq_false_iff.mpr hb
    have hc : hasKey cs k = false := by
      refine Bool.eq_false_iff.mpr ?_
      intro hct
      exact hb ((hasKey_iff_mem bs k).mpr (h ▸ (hasKey_iff_mem cs k).mp hct))
    rw [hb2, hc]

theorem map_fst_upsertZero (bs : List (String × Bucket)) (k : String)
    (hk : hasKey bs k = true) :
    (upsertZero bs k).map Prod.fst = bs.map Prod.fst := by
  rw [upsertZero, if_pos hk]
  exact map_fst_update bs k (fun _ => ⟨0, 0⟩)

theorem nodup_upsertZero (bs : List (String × Bucket)) (k : String)
    (h : (bs.map Prod.fst).Nodup) : ((upsertZero bs k).map Prod.fst).Nodup := by
  rw [upsertZero]
  by_cases hk : hasKey bs k
  · rw [if_pos hk, map_fst_update]
    exact h
  · rw [if_neg hk, List.map_append]
    rw [List.nodup_append]
    refine ⟨h, by simp, ?_⟩
    intro x hx hx2
    simp only [List.map_cons, List.map_nil, List.mem_singleton] at hx2
    subst hx2
    exact hk ((hasKey_iff_mem bs x).mpr hx)

theorem nodup_prefill_aux :
    ∀ (ks : List String) (acc : List (String × Bucket)),
      (acc.map Prod.fst).Nodup → ((ks.foldl upsertZero acc).map Prod.fst).Nodup := by
  intro ks
  induction ks with
  | nil => intro acc h; exact h
  | cons k ks ih =>
    intro acc h
    rw [List.foldl_cons]
    exact ih _ (nodup_upsertZero acc k h)

theorem nodup_prefill (today : CivilDate) : ((prefill today).map Prod.fst).Nodup :=
  nodup_prefill_aux _ [] (by simp)

theorem foldl_upsert_fresh :
    ∀ (ks : List String) (acc : List (String × Bucket)),
      ks.Nodup → (∀ k ∈ ks, hasKey acc k = false) →
      ks.foldl upsertZero acc = acc ++ ks.map (fun k => (k, (⟨0, 0⟩ : Bucket))) := by
  intro ks
  induction ks with
  | nil => intro acc _ _; simp
  | cons k ks ih =>
    intro acc hnd hfresh
    rw [List.foldl_cons]
    have hk : hasKey acc k = false := hfresh k (List.mem_cons_self k ks)
    rw [upsertZero, if_neg (by rw [hk]; exact Bool.false_ne_true)]
    rcases List.nodup_cons.mp hnd with ⟨hknotin, hndt⟩
    have hfr : ∀ j ∈ ks, hasKey (acc ++ [(k, (⟨0, 0⟩ : Bucket))]) j = false := by
      intro j hj
      have hj1 : hasKey acc j = false := hfresh j (List.mem_cons_of_mem k hj)
      have hjk : k ≠ j := fun heq => hknotin (heq ▸ hj)
      rw [hasKey, List.any_append]
      rw [hasKey] at hj1
      rw [hj1]
      simp [hjk]
    rw [ih (acc ++ [(k, (⟨0, 0⟩ : Bucket))]) hndt hfr, List.append_assoc]
    rfl

theorem prefill_eq (today : CivilDate) (hnd : (growthKeys today).Nodup) :
    prefill today = (growthKeys today).map (fun k => (k, (⟨0, 0⟩ : Bucket))) := by
  rw [prefill, foldl_upsert_fresh _ [] hnd (fun k _ => rfl), List.nil_append]

theorem map_fst_applyOp (bs : List (String × Bucket)) (op : GrowthOp) :
    (applyOp bs op).map Prod.fst = bs.map Prod.fst := by
  obtain ⟨ts, amt⟩ := op
  cases ts with
  | none => rfl
  | some ts =>
    rw [applyOp]
    by_cases h0 : String.mk (ts.data.take 10) = ""
    · rw [if_pos h0]
    · rw [if_neg h0]
      by_cases hk : hasKey bs (String.mk (ts.data.take 10))
      · rw [if_pos hk]
        exact map_fst_update bs _ _
      · rw [if_neg hk]

theorem map_fst_foldl_applyOp :
    ∀ (ops : List GrowthOp) (bs : List (String × Bucket)),
      (ops.foldl applyOp bs).map Prod.fst = bs.map Prod.fst := by
  intro ops
  induction ops with
  | nil => intro bs; rfl
  | cons op ops ih =>
    intro bs
    rw [List.foldl_cons, ih, map_fst_applyOp]

/-! ## C3: the growth series is gap-free -/

/-- C3: for any non-empty fetch result, `getGrowthData` returns exactly 31
buckets, keyed by the calendar dates from 30 days before today through today
in ascending order with no gaps and no duplicates, however sparse the
operations are.  The hypothesis `hkeys` records the calendar fact that the
31 generated date keys are strictly increasing in the string order the sort
uses. -/
theorem growth_buckets_complete (today : CivilDate) (ops : List GrowthOp)
    (hops : ops ≠ [])
    (hkeys : (growthKeys today).Pairwise (fun a b => strCmp a b = .lt)) :
    (growthEntries today ops).map Prod.fst = growthKeys today ∧
    (growthKeys today).Nodup ∧
    (getGrowthData today (some ops)).length = 31 := by
  have hnd : (growthKeys today).Nodup :=
    hkeys.imp (fun h => strCmp_lt_ne h)
  have hfst : (ops.foldl applyOp (prefill today)).map Prod.fst = growthKeys today := by
    rw [map_fst_foldl_applyOp, prefill_eq today hnd, List.map_map]
    have hcompid : (Prod.fst ∘ (fun k => (k, (⟨0, 0⟩ : Bucket)))) = (id : String → String) :=
      rfl
    rw [hcompid, List.map_id]
  have hsorted : (ops.foldl applyOp (prefill today)).Pairwise
      (fun a b => strCmp a.1 b.1 ≠ .gt) := by
    have hm : ((ops.foldl applyOp (prefill today)).map Prod.fst).Pairwise
        (fun a b => strCmp a b ≠ .gt) := by
      rw [hfst]
      exact hkeys.imp (fun h => by rw [h]; decide)
    exact List.pairwise_map.mp hm
  have hentries : growthEntries today ops = ops.foldl applyOp (prefill today) := by
    rw [growthEntries]
    exact List.Sorted.insertionSort_eq hsorted
  refine ⟨by rw [hentries, hfst], hnd, ?_⟩
  cases ops with
  | nil => exact absurd rfl hops
  | cons o os =>
    simp only [getGrowthData, List.isEmpty_cons, Bool.false_eq_true, if_false,
      List.length_map]
    rw [hentries]
    have hlen := congrArg List.length hfst
    rw [List.length_map] at hlen
    rw [hlen, growthKeys_length]

theorem growth_buckets_complete_witness :
    (growthEntries ⟨2025, 10, 12⟩ [⟨some "2025-10-11T05:00:00Z", some 2500000⟩]).map
        Prod.fst = growthKeys ⟨2025, 10, 12⟩ ∧
    (growthKeys ⟨2025, 10, 12⟩).Nodup ∧
    (getGrowthData ⟨2025, 10, 12⟩
        (some [⟨some "2025-10-11T05:00:00Z", some 2500000⟩])).length = 31 :=
  growth_buckets_complete ⟨2025, 10, 12⟩ [⟨some "2025-10-11T05:00:00Z", some 2500000⟩]
    (by decide) (by decide)

/-! ## C10: accumulation touches at most one bucket per operation -/

/-- Whether the accumulation loop touches a bucket for an operation: the
timestamp is present and its first ten characters form a non-empty key among
the pre-filled ones. -/
def relevantOp (today : CivilDate) : GrowthOp → Bool
  | ⟨none, _⟩ => false
  | ⟨some ts, _⟩ =>
    if String.mk (ts.data.take 10) = "" then false
    else hasKey (prefill today) (String.mk (ts.data.take 10))

/-- Total of the bucket counts. -/
def totalCount (bs : List (String × Bucket)) : ℕ :=
  (bs.map (fun p => p.2.count)).sum

theorem totalCount_cons (p : String × Bucket) (t : List (String × Bucket)) :
    totalCount (p :: t) = p.2.count + totalCount t := by
  simp [totalCount]

theorem totalCount_update_le (day : String) (q : ℚ) :
    ∀ (bs : List (String × Bucket)), (bs.map Prod.fst).Nodup →
      totalCount (bs.map (fun p =>
          if p.1 = day then (p.1, ⟨p.2.count + 1, p.2.volume + q⟩) else p)) ≤
        totalCount bs + 1 := by
  intro bs
  induction bs with
  | nil => intro _; simp [totalCount]
  | cons p t ih =>
    intro hnd
    rw [List.map_cons, List.nodup_cons] at hnd
    obtain ⟨hp1, hndt⟩ := hnd
    rw [List.map_cons, totalCount_cons, totalCount_cons]
    by_cases hp : p.1 = day
    · rw [if_pos hp]
      have ht : t.map (fun p =>
          if p.1 = day then (p.1, (⟨p.2.count + 1, p.2.volume + q⟩ : Bucket)) else p) =
          t.map id := by
        refine List.map_congr_left ?_
        intro x hx
        have hxd : x.1 ≠ day := by
          intro heq
          exact hp1 (by rw [hp, ← heq]; exact List.mem_map_of_mem Prod.fst hx)
        rw [if_neg hxd]
        rfl
      rw [ht, List.map_id]
      dsimp only
      omega
    · rw [if_neg hp]
      have := ih hndt
      omega

theorem totalCount_applyOp_le (bs : List (String × Bucket)) (op : GrowthOp)
    (hnd : (bs.map Prod.fst).Nodup) :
    totalCount (applyOp bs op) ≤ totalCount bs + 1 := by
  obtain ⟨ts, amt⟩ := op
  cases ts with
  | none => exact Nat.le_succ _
  | some ts =>
    rw [applyOp]
    by_cases h0 : String.mk (ts.data.take 10) = ""
    · rw [if_pos h0]; exact Nat.le_succ _
    · rw [if_neg h0]
      by_cases hk : hasKey bs (String.mk (ts.data.take 10))
      · rw [if_pos hk]
        exact totalCount_update_le _ _ bs hnd
      · rw [if_neg hk]; exact Nat.le_succ _

theorem totalCount_foldl_le :
    ∀ (ops : List GrowthOp) (bs : List (String × Bucket)),
      (bs.map Prod.fst).Nodup →
      totalCount (ops.foldl applyOp bs) ≤ totalCount bs + ops.length := by
  intro ops
  induction ops with
  | nil => intro bs _; simp
  | cons op ops ih =>
    intro bs hnd
    rw [List.foldl_cons]
    have h1 := ih (applyOp bs op) (by rw [map_fst_applyOp]; exact hnd)
    have h2 := totalCount_applyOp_le bs op hnd
    simp only [List.length_cons]
    omega

theorem prefill_counts_zero_aux :
    ∀ (ks : List String) (acc : List (String × Bucket)),
      (∀ p ∈ acc, p.2.count = 0) →
      ∀ p ∈ ks.foldl upsertZero acc, p.2.count = 0 := by
  intro ks
  induction ks with
  | nil => intro acc h; exact h
  | cons k ks ih =>
    intro acc h
    rw [List.foldl_cons]
    refine ih _ ?_
    intro p hp
    rw [upsertZero] at hp
    by_cases hk : hasKey acc k
    · rw [if_pos hk] at hp
      rcases List.mem_map.mp hp with ⟨q, hq, hqe⟩
      by_cases hq1 : q.1 = k
      · rw [if_pos hq1] at hqe
        rw [← hqe]
      · rw [if_neg hq1] at hqe
        rw [← hqe]
        exact h q hq
    · rw [if_neg hk] at hp
      rcases List.mem_append.mp hp with hp | hp
      · exact h p hp
      · rcases List.mem_singleton.mp hp with rfl
        rfl

theorem totalCount_prefill (today : CivilDate) : totalCount (prefill today) = 0 := by
  rw [totalCount]
  refine List.sum_eq_zero ?_
  intro x hx
  rcases List.mem_map.mp hx with ⟨p, hp, hpe⟩
  rw [← hpe]
  exact prefill_counts_zero_aux _ [] (by intro p hp; cases hp) p hp

/-- C10: each fetched operation is accumulated into at most one bucket and
only when its sliced date key is one of the pre-filled keys, so ignoring the
irrelevant operations changes nothing, and the bucket counts of the emitted
series sum to at most the number of fetched operations. -/
theorem growth_accumulation_bound (today : CivilDate) (ops : List GrowthOp) :
    ((getGrowthData today (some ops)).map ChartData.count).sum ≤ ops.length ∧
    ops.foldl applyOp (prefill today) =
      (ops.filter (relevantOp today)).foldl applyOp (prefill today) := by
  constructor
  · cases ops with
    | nil => simp [getGrowthData]
    | cons o os =>
      simp only [getGrowthData, List.isEmpty_cons, Bool.false_eq_true, if_false]
      rw [List.map_map]
      have hcomp : (ChartData.count ∘ (fun (p : String × Bucket) =>
          (⟨displayDate p.1, p.2.count, round2 p.2.volume⟩ : ChartData))) =
          (fun (p : String × Bucket) => p.2.count) := rfl
      rw [hcomp]
      have hperm : List.Perm
          ((growthEntries today (o :: os)).map (fun p => p.2.count))
          (((o :: os).foldl applyOp (prefill today)).map (fun p => p.2.count)) :=
        (List.perm_insertionSort _ _).map _
      rw [hperm.sum_eq]
      have hbound := totalCount_foldl_le (o :: os) (prefill today) (nodup_prefill today)
      rw [totalCount_prefill, totalCount] at hbound
      omega
  · have key : ∀ (l : List GrowthOp) (bs : List (String × Bucket)),
        bs.map Prod.fst = (prefill today).map Prod.fst →
        l.foldl applyOp bs = (l.filter (relevantOp today)).foldl applyOp bs := by
      intro l
      induction l with
      | nil => intro bs _; rfl
      | cons op l ih =>
        intro bs hbs
        rw [List.foldl_cons, List.filter_cons]
        by_cases hrel : relevantOp today op = true
        · rw [if_pos hrel, List.foldl_cons]
          exact ih (applyOp bs op) (by rw [map_fst_applyOp, hbs])
        · rw [if_neg hrel]
          have hskip : applyOp bs op = bs := by
            obtain ⟨ts, amt⟩ := op
            cases ts with
            | none => rfl
            | some ts =>
              rw [applyOp]
              by_cases h0 : String.mk (ts.data.take 10) = ""
              · rw [if_pos h0]
              · rw [if_neg h0]
                have hkf : hasKey (prefill today) (String.mk (ts.data.take 10)) = false := by
                  rw [relevantOp, if_neg h0] at hrel
                  exact Bool.eq_false_iff.mpr hrel
                rw [if_neg (by rw [hasKey_of_map_fst _ hbs, hkf]; exact Bool.false_ne_true)]
          rw [hskip]
          exact ih bs hbs
    exact key ops (prefill today) rfl

/-! ## Tally lemmas for `getTopHolders` -/

theorem map_fst_update_nat (cs : List (String × ℕ)) (a : String) :
    (cs.map (fun p => if p.1 = a then (p.1, p.2 + 1) else p)).map Prod.fst =
      cs.map Prod.fst := by
  rw [List.map_map]
  refine List.map_congr_left ?_
  intro p _
  by_cases h : p.1 = a <;> simp [h]

theorem any_fst_iff_mem (cs : List (String × ℕ)) (a : String) :
    cs.any (fun p => p.1 = a) = true ↔ a ∈ cs.map Prod.fst := by
  simp [List.any_eq_true, List.mem_map]

theorem nodup_bumpCount (cs : List (String × ℕ)) (a : String)
    (h : (cs.map Prod.fst).Nodup) : ((bumpCount cs a).map Prod.fst).Nodup := by
  rw [bumpCount]
  by_cases hk : cs.any (fun p => p.1 = a)
  · rw [if_pos hk, map_fst_update_nat]
    exact h
  · rw [if_neg hk, List.map_append, List.nodup_append]
    refine ⟨h, by simp, ?_⟩
    intro x hx hx2
    simp only [List.map_cons, List.map_nil, List.mem_singleton] at hx2
    subst hx2
    exact hk ((any_fst_iff_mem cs x).mpr hx)

theorem pos_bumpCount (cs : List (String × ℕ)) (a : String)
    (h : ∀ p ∈ cs, 0 < p.2) : ∀ p ∈ bumpCount cs a, 0 < p.2 := by
  intro p hp
  rw [bumpCount] at hp
  by_cases hk : cs.any (fun q => q.1 = a)
  · rw [if_pos hk] at hp
    rcases List.mem_map.mp hp with ⟨q, hq, hqe⟩
    by_cases hq1 : q.1 = a
    · rw [if_pos hq1] at hqe
      rw [← hqe]
      dsimp only
      omega
    · rw [if_neg hq1] at hqe
      rw [← hqe]
      exact h q hq
  · rw [if_neg hk] at hp
    rcases List.mem_append.mp hp with hp | hp
    · exact h p hp
    · rcases List.mem_singleton.mp hp with rfl
      norm_num

theorem sum_update_of_mem (a : String) :
    ∀ (cs : List (String × ℕ)), (cs.map Prod.fst).Nodup →
      cs.any (fun p => p.1 = a) = true →
      ((cs.map (fun p => if p.1 = a then (p.1, p.2 + 1) else p)).map Prod.snd).sum =
        ((cs.map Prod.snd).sum) + 1 := by
  intro cs
  induction cs with
  | nil => intro _ h; cases h
  | cons p t ih =>
    intro hnd hany
    rw [List.map_cons, List.nodup_cons] at hnd
    obtain ⟨hp1, hndt⟩ := hnd
    rw [List.map_cons, List.map_cons, List.sum_cons, List.map_cons, List.sum_cons]
    by_cases hp : p.1 = a
    · rw [if_pos hp]
      have ht : t.map (fun q => if q.1 = a then (q.1, q.2 + 1) else q) = t.map id := by
        refine List.map_congr_left ?_
        intro x hx
        have hxa : x.1 ≠ a := fun heq =>
          hp1 (by rw [hp, ← heq]; exact List.mem_map_of_mem Prod.fst hx)
        rw [if_neg hxa]
        rfl
      rw [ht, List.map_id]
      dsimp only
      omega
    · rw [if_neg hp]
      have hat : t.any (fun q => q.1 = a) = true := by
        rw [List.any_cons] at hany
        simpa [hp] using hany
      have := ih hndt hat
      omega

theorem sum_bumpCount (cs : List (String × ℕ)) (a : String)
    (hnd : (cs.map Prod.fst).Nodup) :
    ((bumpCount cs a).map Prod.snd).sum = ((cs.map Prod.snd).sum) + 1 := by
  rw [bumpCount]
  by_cases hk : cs.any (fun p => p.1 = a) = true
  · rw [if_pos hk]
    exact sum_update_of_mem a cs hnd hk
  · rw [if_neg hk, List.map_append, List.sum_append]
    simp

theorem tally_loop_props :
    ∀ (ops : List HolderOp) (acc : List (String × ℕ)),
      (acc.map Prod.fst).Nodup → (∀ p ∈ acc, 0 < p.2) →
      ((ops.foldl tallyStep acc).map Prod.fst).Nodup ∧
      (∀ p ∈ ops.foldl tallyStep acc, 0 < p.2) ∧
      ((ops.foldl tallyStep acc).map Prod.snd).sum =
        ((acc.map Prod.snd).sum) + ops.countP (fun op => (tallyAddr op).isSome) := by
  intro ops
  induction ops with
  | nil => intro acc h1 h2; exact ⟨h1, h2, by simp⟩
  | cons op ops ih =>
    intro acc h1 h2
    rw [List.foldl_cons]
    rcases hta : tallyAddr op with _ | a
    · have hstep : tallyStep acc op = acc := by rw [tallyStep, hta]
      rw [hstep]
      refine ⟨(ih acc h1 h2).1, (ih acc h1 h2).2.1, ?_⟩
      rw [(ih acc h1 h2).2.2, List.countP_cons]
      simp [hta]
    · have hstep : tallyStep acc op = bumpCount acc a := by rw [tallyStep, hta]
      rw [hstep]
      have h1b := nodup_bumpCount acc a h1
      have h2b := pos_bumpCount acc a h2
      refine ⟨(ih _ h1b h2b).1, (ih _ h1b h2b).2.1, ?_⟩
      rw [(ih _ h1b h2b).2.2, sum_bumpCount acc a h1, List.countP_cons]
      simp [hta]
      omega

/-! ## C6: the leaderboard ranking -/

/-- C6: `getTopHolders` returns at most 10 rankings, non-increasing by
count, all counts positive, the addresses pairwise distinct; and the tally
counts exactly the fetched operations whose sender resolves to a well-formed
address string (the malformed ones are excluded). -/
theorem top_holders_ranking (fetched : Option (List HolderOp)) :
    (getTopHolders fetched).length ≤ 10 ∧
    (getTopHolders fetched).Pairwise (fun a b => b.count ≤ a.count) ∧
    (∀ h ∈ getTopHolders fetched, 0 < h.count) ∧
    ((getTopHolders fetched).map Holder.address).Nodup ∧
    (∀ ops : List HolderOp, fetched = some ops →
      ((tally ops).map Prod.snd).sum =
        ops.countP (fun op => (tallyAddr op).isSome)) := by
  have tally_sum : ∀ ops : List HolderOp,
      ((tally ops).map Prod.snd).sum = ops.countP (fun op => (tallyAddr op).isSome) := by
    intro ops
    have h := (tally_loop_props ops [] (by simp) (by intro p hp; cases hp)).2.2
    simpa [tally] using h
  cases fetched with
  | none =>
    refine ⟨by simp [getTopHolders], by simp [getTopHolders], ?_, by simp [getTopHolders], ?_⟩
    · intro h hh
      rw [getTopHolders] at hh
      cases hh
    · intro ops h
      cases h
  | some ops =>
    have hprops := tally_loop_props ops [] (by simp) (by intro p hp; cases hp)
    have hnd : ((tally ops).map Prod.fst).Nodup := hprops.1
    have hpos : ∀ p ∈ tally ops, 0 < p.2 := hprops.2.1
    by_cases hemp : ops.isEmpty
    · have hout : getTopHolders (some ops) = [] := by
        rw [getTopHolders, if_pos hemp]
      rw [hout]
      refine ⟨by simp, by simp, ?_, by simp, ?_⟩
      · intro h hh; cases hh
      · intro ops' h
        injection h with h'
        subst h'
        exact tally_sum ops
    · have hout : getTopHolders (some ops) =
          ((List.insertionSort (fun a b => b.2 ≤ a.2) (tally ops)).take 10).map
            (fun p => ⟨p.1, p.2⟩) := by
        rw [getTopHolders, if_neg hemp]
      have hsorted : (List.insertionSort (fun a b : String × ℕ => b.2 ≤ a.2)
          (tally ops)).Pairwise (fun a b => b.2 ≤ a.2) :=
        pairwise_insertionSort (fun a b : String × ℕ => b.2 ≤ a.2) (fun _ => True)
          (fun _ _ _ _ _ _ hab hbc => le_trans hbc hab)
          (fun a b _ _ => le_total b.2 a.2) (tally ops) (fun _ _ => trivial)
      refine ⟨?_, ?_, ?_, ?_, ?_⟩
      · rw [hout, List.length_map, List.length_take]
        exact min_le_left _ _
      · rw [hout]
        refine List.pairwise_map.mpr ?_
        exact List.Pairwise.sublist (List.take_sublist 10 _) hsorted
      · intro h hh
        rw [hout] at hh
        rcases List.mem_map.mp hh with ⟨p, hp, hpe⟩
        have hp2 : p ∈ tally ops :=
          (List.mem_insertionSort _).mp (List.mem_of_mem_take hp)
        rw [← hpe]
        exact hpos p hp2
      · rw [hout, List.map_map]
        have hcomp : (Holder.address ∘ (fun p : String × ℕ => (⟨p.1, p.2⟩ : Holder))) =
            (Prod.fst : String × ℕ → String) := rfl
        rw [hcomp, List.map_take]
        refine List.Nodup.sublist (List.take_sublist 10 _) ?_
        have hperm : List.Perm
            ((List.insertionSort (fun a b : String × ℕ => b.2 ≤ a.2) (tally ops)).map Prod.fst)
            ((tally ops).map Prod.fst) :=
          (List.perm_insertionSort _ _).map _
        exact hperm.nodup_iff.mpr hnd
      · intro ops' h
        injection h with h'
        subst h'
        exact tally_sum ops

/-! ## C5: the activity feed is capped and time-sorted -/

/-- C5: for any pair of fetch results, `getRecentActivity` returns at most
15 events; provided every merged event timestamp parses (as every indexer
timestamp does), the output is in non-increasing parsed-timestamp order —
the merge is stable-sorted descending by timestamp and truncated to 15. -/
theorem recent_activity_capped_sorted (buys renews : Option (List TxOp))
    (hts : ∀ x ∈ mergedItems buys renews, (jsGetTime x.timestamp).isSome = true) :
    (getRecentActivity buys renews).length ≤ 15 ∧
    (getRecentActivity buys renews).Pairwise
      (fun a b => (jsGetTime b.timestamp).getD 0 ≤ (jsGetTime a.timestamp).getD 0) := by
  constructor
  · rw [getRecentActivity, List.length_take]
    exact min_le_left _ _
  · have hsorted : (List.insertionSort activityLE
        (mergedItems buys renews)).Pairwise activityLE := by
      refine pairwise_insertionSort activityLE
        (fun x => (jsGetTime x.timestamp).isSome = true) ?_ ?_ _ hts
      · intro a b c hPa hPb hPc hab hbc
        rcases Option.isSome_iff_exists.mp hPa with ⟨ta, hta⟩
        rcases Option.isSome_iff_exists.mp hPb with ⟨tb, htb⟩
        rcases Option.isSome_iff_exists.mp hPc with ⟨tc, htc⟩
        simp only [activityLE, activityCmp, hta, htb] at hab
        simp only [activityLE, activityCmp, htb, htc] at hbc
        simp only [activityLE, activityCmp, hta, htc]
        omega
      · intro a b hPa hPb
        rcases Option.isSome_iff_exists.mp hPa with ⟨ta, hta⟩
        rcases Option.isSome_iff_exists.mp hPb with ⟨tb, htb⟩
        simp only [activityLE, activityCmp, hta, htb]
        omega
    have htake : (getRecentActivity buys renews).Pairwise activityLE := by
      rw [getRecentActivity]
      exact List.Pairwise.sublist (List.take_sublist 15 _) hsorted
    refine List.Pairwise.imp_of_mem ?_ htake
    intro a b ha hb hab
    have hma : a ∈ mergedItems buys renews := by
      rw [getRecentActivity] at ha
      exact (List.mem_insertionSort activityLE).mp (List.mem_of_mem_take ha)
    have hmb : b ∈ mergedItems buys renews := by
      rw [getRecentActivity] at hb
      exact (List.mem_insertionSort activityLE).mp (List.mem_of_mem_take hb)
    rcases Option.isSome_iff_exists.mp (hts a hma) with ⟨ta, hta⟩
    rcases Option.isSome_iff_exists.mp (hts b hmb) with ⟨tb, htb⟩
    simp only [activityLE, activityCmp, hta, htb] at hab
    rw [hta, htb]
    simp only [Option.getD_some]
    omega

theorem recent_activity_capped_sorted_witness :
    (getRecentActivity
        (some [⟨1, none, some "tz1a", "2025-10-10T01:00:00Z", some 1000000⟩])
        (some [⟨2, none, some "tz1b", "2025-10-11T01:00:00Z", none⟩])).length ≤ 15 ∧
    (getRecentActivity
        (some [⟨1, none, some "tz1a", "2025-10-10T01:00:00Z", some 1000000⟩])
        (some [⟨2, none, some "tz1b", "2025-10-11T01:00:00Z", none⟩])).Pairwise
      (fun a b => (jsGetTime b.timestamp).getD 0 ≤ (jsGetTime a.timestamp).getD 0) :=
  recent_activity_capped_sorted
    (some [⟨1, none, some "tz1a", "2025-10-10T01:00:00Z", some 1000000⟩])
    (some [⟨2, none, some "tz1b", "2025-10-11T01:00:00Z", none⟩]) (by decide)

/-! ## C9: event identifiers are tag-prefixed and pairwise distinct -/

theorem string_append_left_cancel {p a b : String} (h : p ++ a = p ++ b) : a = b := by
  have hd := congrArg String.data h
  rw [String.data_append, String.data_append] at hd
  have hdd := List.append_cancel_left hd
  cases a with
  | mk da =>
    cases b with
    | mk db =>
      have hlists : da = db := hdd
      rw [hlists]

theorem buy_renew_id_ne (s t : String) : "buy-" ++ s ≠ "renew-" ++ t := by
  intro h
  have h2 : ("buy-" ++ s).data.head? = ("renew-" ++ t).data.head? := by rw [h]
  rw [String.data_append, String.data_append] at h2
  have e1 : ("buy-".data ++ s.data).head? = some 'b' := rfl
  have e2 : ("renew-".data ++ t.data).head? = some 'r' := rfl
  rw [e1, e2] at h2
  exact absurd h2 (by decide)

/-- C9: every produced event identifier is the underlying operation
identifier prefixed with its event-kind tag, and when identifiers are unique
within each source list all merged event identifiers are pairwise distinct —
in particular an acquisition and a renewal with the same operation id get
different event identifiers. -/
theorem activity_event_ids_distinct (buys renews : List TxOp)
    (hb : (buys.map TxOp.id).Nodup) (hr : (renews.map TxOp.id).Nodup) :
    ((getRecentActivity (some buys) (some renews)).map ActivityItem.id).Nodup ∧
    (∀ op1 op2 : TxOp, (buyItem op1).id ≠ (renewItem op2).id) ∧
    (∀ op : TxOp, (buyItem op).id = "buy-" ++ Nat.repr op.id ∧
      (renewItem op).id = "renew-" ++ Nat.repr op.id) := by
  refine ⟨?_, fun op1 op2 => buy_renew_id_ne _ _, fun op => ⟨rfl, rfl⟩⟩
  have hmerged : ((mergedItems (some buys) (some renews)).map ActivityItem.id).Nodup := by
    rw [mergedItems, List.map_append, List.map_map, List.map_map, List.nodup_append]
    refine ⟨?_, ?_, ?_⟩
    · have hc : (ActivityItem.id ∘ buyItem) =
          ((fun n : ℕ => "buy-" ++ Nat.repr n) ∘ TxOp.id) := rfl
      rw [hc, ← List.map_map]
      refine List.Nodup.map ?_ hb
      intro m n h
      exact natRepr_inj (string_append_left_cancel h)
    · have hc : (ActivityItem.id ∘ renewItem) =
          ((fun n : ℕ => "renew-" ++ Nat.repr n) ∘ TxOp.id) := rfl
      rw [hc, ← List.map_map]
      refine List.Nodup.map ?_ hr
      intro m n h
      exact natRepr_inj (string_append_left_cancel h)
    · intro x hx hy
      rcases List.mem_map.mp hx with ⟨op1, _, h1⟩
      rcases List.mem_map.mp hy with ⟨op2, _, h2⟩
      exact buy_renew_id_ne (Nat.repr op1.id) (Nat.repr op2.id) (h1.trans h2.symm)
  have hperm : List.Perm
      ((List.insertionSort activityLE (mergedItems (some buys) (some renews))).map
        ActivityItem.id)
      ((mergedItems (some buys) (some renews)).map ActivityItem.id) :=
    (List.perm_insertionSort _ _).map _
  have hnodup_sorted := hperm.nodup_iff.mpr hmerged
  rw [getRecentActivity, List.map_take]
  exact List.Nodup.sublist (List.take_sublist _ _) hnodup_sorted

theorem activity_event_ids_distinct_witness :
    ((getRecentActivity
        (some [⟨5, none, some "tz1a", "2025-10-10T01:00:00Z", none⟩])
        (some [⟨5, none, some "tz1b", "2025-10-11T01:00:00Z", none⟩])).map
      ActivityItem.id).Nodup ∧
    (∀ op1 op2 : TxOp, (buyItem op1).id ≠ (renewItem op2).id) ∧
    (∀ op : TxOp, (buyItem op).id = "buy-" ++ Nat.repr op.id ∧
      (renewItem op).id = "renew-" ++ Nat.repr op.id) :=
  activity_event_ids_distinct
    [⟨5, none, some "tz1a", "2025-10-10T01:00:00Z", none⟩]
    [⟨5, none, some "tz1b", "2025-10-11T01:00:00Z", none⟩] (by decide) (by decide)

end TzDash
